import Mathlib

/-!
Shallow embedding of the session-state synchronization core of agent-deck
(`internal/session/gemini.go` together with the instance-level YOLO-mode
logic exercised by `internal/session/gemini_yolo_refinement_test.go`).

Modelling conventions:
* File-system state is explicit: a `GeminiFS` lists the project-hash
  directories found under `<config>/tmp`, each carrying the files of its
  `chats` subdirectory.  `os.Stat` succeeds on every listed file;
  modification times are naturals, with `0` standing for Go's zero
  `time.Time` (so `info.ModTime().After(zero)` becomes `0 < mtime`).
* `HashProjectPath` (SHA-256 of the canonicalized, symlink-resolved
  absolute path) is abstracted as a function parameter `hashFn`.
* Timestamp strings are modelled by their parsed value (`Nat`, `0` when
  both `time.Parse` attempts fail), since no claim depends on the textual
  RFC-3339 format, only on zero/non-zero and on subtraction.
* Strings are treated as ASCII, so Go's byte length and byte slicing
  agree with `String.length` / `String.take` on session identifiers.
* `filepath.Glob` sorts its matches lexically; the model keeps the
  enumeration order of the file list.  The order is observable only
  through tie-breaking on equal modification times, which the code
  leaves arbitrary.
-/

namespace AgentDeck

/-- One transcript turn record, the element type of the `messages` array in
`UpdateGeminiAnalyticsFromDisk`'s inline struct: a `type` discriminator
(`"gemini"` marks agent turns), an optional model name (`""` when the
`model,omitempty` field is absent), and nested input/output token counts
(Go `int`, modelled as `Int`). -/
structure GeminiMessage where
  type : String
  model : String
  tokensInput : Int
  tokensOutput : Int
deriving DecidableEq

/-- The parsed transcript: `sessionId`, the two timestamps (modelled by
their parsed values, `0` = Go zero time), and the ordered message list. -/
structure GeminiSessionData where
  sessionId : String
  startTime : Nat
  lastUpdated : Nat
  messages : List GeminiMessage
deriving DecidableEq

/-- What reading a transcript file yields: `os.ReadFile` failure,
`json.Unmarshal` failure, or a successfully decoded session. -/
inductive FileContent where
  | unreadable : FileContent
  | malformed : FileContent
  | valid : GeminiSessionData → FileContent
deriving DecidableEq

/-- A file inside some project's `chats` directory: its base name, its
modification time, and what reading it would yield. -/
structure ChatFile where
  name : String
  mtime : Nat
  content : FileContent
deriving DecidableEq

/-- One project-hash directory under `<config>/tmp`, with the files of its
`chats` subdirectory. -/
structure ProjectDir where
  hash : String
  chats : List ChatFile
deriving DecidableEq

/-- The file-system state visible to the locator: the directory entries of
`<config>/tmp`. -/
structure GeminiFS where
  projects : List ProjectDir
deriving DecidableEq

/-- The analytics snapshot attached to an instance
(`GeminiSessionAnalytics`); field set taken from its uses in
`UpdateGeminiAnalyticsFromDisk`.  `lastFileModTime = 0` models the zero
`time.Time` checked by `IsZero`. -/
structure GeminiSessionAnalytics where
  startTime : Nat := 0
  lastActive : Nat := 0
  duration : Int := 0
  inputTokens : Int := 0
  outputTokens : Int := 0
  totalTurns : Int := 0
  model : String := ""
  currentContextTokens : Int := 0
  lastFileModTime : Nat := 0
deriving DecidableEq

/-- The glob `session-*-<p8>.json` applied to a base name: matches exactly
the names of the form `session-` ++ mid ++ `-` ++ p8 ++ `.json` (with mid
possibly empty; `p8` is an 8-character identifier slice containing no glob
metacharacters).  The first two conjuncts model Go's prefix/suffix
comparison on the pattern's literal parts; the length bound rules out
overlap of the two literal parts. -/
def matchesSessionGlob (p8 name : String) : Bool :=
  "session-".toList.isPrefixOf name.toList &&
  ("-" ++ p8 ++ ".json").toList.isSuffixOf name.toList &&
  decide (8 + (1 + p8.length + 5) ≤ name.length)

/-- `filepath.Glob` of `session-*-<p8>.json` inside one `chats`
directory. -/
def globChats (chats : List ChatFile) (p8 : String) : List ChatFile :=
  chats.filter (fun f => matchesSessionGlob p8 f.name)

/-- Glob of the session pattern inside the `chats` directory of the
project whose hash directory name is `hash` (empty when no such
directory exists). -/
def globProject (fs : GeminiFS) (hash p8 : String) : List ChatFile :=
  match fs.projects.find? (fun p => p.hash == hash) with
  | some p => globChats p.chats p8
  | none => []

/-- The accumulator loop of `findNewestFile`: `newestFile`/`newestTime`
start empty/zero, and a file is taken only when its modification time is
strictly `After` the current best (so a zero-mtime file is never
selected). -/
def pickNewest : Option ChatFile → List ChatFile → Option ChatFile
  | acc, [] => acc
  | none, f :: rest => pickNewest (if 0 < f.mtime then some f else none) rest
  | some g, f :: rest => pickNewest (if g.mtime < f.mtime then some f else some g) rest

/-- `findNewestFile`: empty glob yields nothing, a single match is
returned without a `Stat`, and otherwise the strict-`After` scan runs. -/
def findNewestFile (files : List ChatFile) : Option ChatFile :=
  match files with
  | [] => none
  | [f] => some f
  | _ => pickNewest none files

/-- The directory loop of `findGeminiSessionInAllProjects`: for each
project directory, `findNewestFile` on that directory's glob, kept only
when strictly `After` the best so far (initially zero time). -/
def scanProjects (p8 : String) : Option (String × ChatFile) → List ProjectDir → Option (String × ChatFile)
  | acc, [] => acc
  | acc, p :: rest =>
    let next := match findNewestFile (globChats p.chats p8) with
      | none => acc
      | some f =>
        match acc with
        | none => if 0 < f.mtime then some (p.hash, f) else none
        | some (h, g) => if g.mtime < f.mtime then some (p.hash, f) else some (h, g)
    scanProjects p8 next rest

/-- `findGeminiSessionInAllProjects`: rejects identifiers shorter than 8
characters, then scans every project-hash directory under `tmp` with the
pattern `session-*-<first 8 chars>.json`. -/
def findGeminiSessionInAllProjects (fs : GeminiFS) (sessionID : String) : Option (String × ChatFile) :=
  if sessionID = "" || sessionID.length < 8 then none
  else scanProjects (sessionID.take 8) none fs.projects

/-- The file-location phase of `UpdateGeminiAnalyticsFromDisk`
(lines 311–320): glob in the expected project-hash directory first, and
fall back to the full scan when that yields nothing. -/
def locateGeminiSession (hashFn : String → String) (fs : GeminiFS)
    (projectPath sessionID : String) : Option ChatFile :=
  match findNewestFile (globProject fs (hashFn projectPath) (sessionID.take 8)) with
  | some f => some f
  | none => (findGeminiSessionInAllProjects fs sessionID).map Prod.snd

/-- One iteration of the message loop (lines 385–400): agent (`"gemini"`)
turns accumulate tokens and the turn count, a non-empty model name
overwrites `Model`, and the turn's input-token count overwrites
`CurrentContextTokens`; other turns change nothing. -/
def stepGeminiMessage (a : GeminiSessionAnalytics) (m : GeminiMessage) : GeminiSessionAnalytics :=
  if m.type == "gemini" then
    let a1 := { a with inputTokens := a.inputTokens + m.tokensInput,
                       outputTokens := a.outputTokens + m.tokensOutput,
                       totalTurns := a.totalTurns + 1 }
    let a2 := if m.model ≠ "" then { a1 with model := m.model } else a1
    { a2 with currentContextTokens := m.tokensInput }
  else a

/-- The full message loop. -/
def accumulateGeminiMessages (a : GeminiSessionAnalytics) (msgs : List GeminiMessage) : GeminiSessionAnalytics :=
  msgs.foldl stepGeminiMessage a

/-- The successful-parse tail of `UpdateGeminiAnalyticsFromDisk`
(lines 356–400): record the modification time, install the parsed
timestamps, update `Duration` only when both are non-zero, reset the
accumulated counters and `Model`, and re-run the message loop. -/
def applyGeminiParse (a : GeminiSessionAnalytics) (mtime : Nat) (sess : GeminiSessionData) : GeminiSessionAnalytics :=
  let a2 := { a with lastFileModTime := mtime,
                     startTime := sess.startTime,
                     lastActive := sess.lastUpdated }
  let a3 := if sess.startTime ≠ 0 ∧ sess.lastUpdated ≠ 0
            then { a2 with duration := (sess.lastUpdated : Int) - (sess.startTime : Int) }
            else a2
  let a4 := { a3 with inputTokens := 0, outputTokens := 0, totalTurns := 0, model := "" }
  accumulateGeminiMessages a4 sess.messages

/-- The observable result of one `UpdateGeminiAnalyticsFromDisk` call: the
returned error (if any), the state of the `*analytics` argument after the
call, and whether `json.Unmarshal` was invoked on the transcript. -/
structure UpdateOutcome where
  err : Option String
  analytics : GeminiSessionAnalytics
  parsed : Bool
deriving DecidableEq

/-- `UpdateGeminiAnalyticsFromDisk` (lines 306–403): validate the
identifier, locate the transcript, short-circuit on fingerprint equality,
then read, unmarshal, and apply the parse; every error path leaves the
snapshot untouched. -/
def UpdateGeminiAnalyticsFromDisk (hashFn : String → String) (fs : GeminiFS)
    (projectPath sessionID : String) (analytics : GeminiSessionAnalytics) : UpdateOutcome :=
  if sessionID = "" ∨ sessionID.length < 8 then
    ⟨some "invalid session ID", analytics, false⟩
  else
    match locateGeminiSession hashFn fs projectPath sessionID with
    | none => ⟨some "session file not found", analytics, false⟩
    | some f =>
      if analytics.lastFileModTime ≠ 0 ∧ f.mtime = analytics.lastFileModTime then
        ⟨none, analytics, false⟩
      else
        match f.content with
        | .unreadable => ⟨some "failed to read session file", analytics, false⟩
        | .malformed => ⟨some "failed to parse session for analytics", analytics, true⟩
        | .valid sess => ⟨none, applyGeminiParse analytics f.mtime sess, true⟩

/-- Go's `strings.Split` on a single-character separator, over the
character list: splitting the empty list yields one empty field, and each
separator occurrence starts a new field. -/
def goSplitChars (sep : Char) : List Char → List (List Char)
  | [] => [[]]
  | c :: rest =>
    match goSplitChars sep rest with
    | [] => [[c]]
    | w :: ws => if c == sep then [] :: w :: ws else (c :: w) :: ws

/-- Go's `strings.Split(s, sep)` for a one-character separator. -/
def goSplit (s : String) (sep : Char) : List String :=
  (goSplitChars sep s.toList).map List.asString

/-- Go's `strings.TrimSpace`: drop whitespace from both ends (ASCII
whitespace; Go also trims other Unicode space, which no claim
exercises). -/
def goTrimSpace (s : String) : String :=
  (((s.toList.dropWhile Char.isWhitespace).reverse.dropWhile Char.isWhitespace).reverse).asString

/-- Byte-wise (here: code-point-wise) lexicographic order on character
lists, the order `sort.Strings` sorts by. -/
def goLeChars : List Char → List Char → Bool
  | [], _ => true
  | _ :: _, [] => false
  | a :: as, b :: bs =>
    if a.toNat < b.toNat then true
    else if b.toNat < a.toNat then false
    else goLeChars as bs

/-- The lexicographic order on strings used by `sort.Strings`, as a
proposition. -/
def goStrLe (a b : String) : Prop :=
  goLeChars a.toList b.toList = true

instance : DecidableRel goStrLe :=
  fun a b => inferInstanceAs (Decidable (goLeChars a.toList b.toList = true))

/-- The environment-variable override branch of `GetAvailableGeminiModels`
(lines 29–36), taken whenever `GEMINI_MODELS_OVERRIDE` is non-empty:
split on commas, `TrimSpace` each entry, `sort.Strings` the result.
`sort.Strings` is modelled as sorting in ascending lexicographic order
(its observable result on strings). -/
def geminiModelsFromOverride (override : String) : List String :=
  List.insertionSort goStrLe ((goSplit override ',').map goTrimSpace)

/-- Modelled from the spec: the multiplexer session environment of
`MultiplexerAdapter` (spec section 4.1) — a session-scoped string-to-string
map with `GetEnv`/`SetEnv`, persisted by the multiplexer process.  The
implementing file (`internal/session/instance.go`) is not part of the
sources; only its tests are. -/
structure TmuxEnv where
  vars : List (String × String)
deriving DecidableEq

/-- Modelled from the spec: `SetEnv` binds `key` to `value`, replacing any
previous binding. -/
def setTmuxEnvironment (env : TmuxEnv) (key value : String) : TmuxEnv :=
  ⟨(key, value) :: env.vars.filter (fun kv => kv.1 != key)⟩

/-- Modelled from the spec: `GetEnv` reads the current binding of `key`,
`none` when absent. -/
def getTmuxEnvironment (env : TmuxEnv) (key : String) : Option String :=
  (env.vars.find? (fun kv => kv.1 == key)).map Prod.snd

/-- Modelled from the spec: the slice of an `Instance` relevant to the
operating-mode flag — the tri-state in-memory flag `GeminiYoloMode`
(`none` = unset) and the instance's multiplexer session environment. -/
structure GeminiInstance where
  geminiYoloMode : Option Bool
  tmuxEnv : TmuxEnv
deriving DecidableEq

/-- Modelled from the spec (section 4.2) and
`TestInstance_SetGeminiYoloMode`: `SetGeminiYoloMode` sets the in-memory
flag, then writes `GEMINI_YOLO_MODE` into the session environment with the
boolean rendered as the literal strings `"true"` / `"false"`.  The
implementing `internal/session/instance.go` is not part of the sources. -/
def SetGeminiYoloMode (inst : GeminiInstance) (enabled : Bool) : GeminiInstance :=
  { inst with geminiYoloMode := some enabled,
              tmuxEnv := setTmuxEnvironment inst.tmuxEnv "GEMINI_YOLO_MODE"
                           (if enabled then "true" else "false") }

/-- Modelled from the spec (section 4.2) and
`TestInstance_UpdateGeminiSession_DetectsYoloFromEnv`: the refresh reads
`GEMINI_YOLO_MODE` when the in-memory flag is unset; a value of `"true"`
sets it true, anything else (including absence) sets it false.  The
implementing `internal/session/instance.go` is not part of the sources. -/
def UpdateGeminiSession (inst : GeminiInstance) : GeminiInstance :=
  match inst.geminiYoloMode with
  | some _ => inst
  | none =>
    match getTmuxEnvironment inst.tmuxEnv "GEMINI_YOLO_MODE" with
    | some v => { inst with geminiYoloMode := some (v == "true") }
    | none => { inst with geminiYoloMode := some false }

/-!
Concrete file-system and snapshot fixtures used to instantiate the
theorems below on closed inputs.
-/

def sessW : GeminiSessionData :=
  ⟨"abcd1234-uuid", 100, 200, [⟨"user", "", 5, 5⟩, ⟨"gemini", "g-pro", 10, 1⟩]⟩

def fileW : ChatFile := ⟨"session-2025-01-01T00-00-abcd1234.json", 5, .valid sessW⟩

def fsW : GeminiFS := ⟨[⟨"hashA", [fileW]⟩]⟩

def hashFnW : String → String := fun _ => "hashA"

def analyticsW0 : GeminiSessionAnalytics := {}

def analyticsW1 : GeminiSessionAnalytics :=
  { startTime := 100, lastActive := 200, duration := 100, inputTokens := 10,
    outputTokens := 1, totalTurns := 1, model := "g-pro", currentContextTokens := 10,
    lastFileModTime := 5 }

def sessC3 : GeminiSessionData :=
  ⟨"efgh5678", 100, 250, [⟨"user", "", 5, 5⟩, ⟨"gemini", "m-a", 10, 1⟩,
    ⟨"gemini", "", 20, 2⟩, ⟨"gemini", "m-c", 30, 3⟩]⟩

def fileC3 : ChatFile := ⟨"session-2025-02-02T00-00-efgh5678.json", 9, .valid sessC3⟩

def fsC3 : GeminiFS := ⟨[⟨"hashC3", [fileC3]⟩]⟩

def hashFnC3 : String → String := fun _ => "hashC3"

def analyticsC3 : GeminiSessionAnalytics :=
  { startTime := 100, lastActive := 250, duration := 150, inputTokens := 60,
    outputTokens := 6, totalTurns := 3, model := "m-c", currentContextTokens := 30,
    lastFileModTime := 9 }

def sessE : GeminiSessionData := ⟨"ijkl9012", 0, 0, [⟨"user", "", 5, 5⟩]⟩

def fileE : ChatFile := ⟨"session-2025-03-03T00-00-ijkl9012.json", 7, .valid sessE⟩

def fsE : GeminiFS := ⟨[⟨"hashE", [fileE]⟩]⟩

def hashFnE : String → String := fun _ => "hashE"

def analyticsX : GeminiSessionAnalytics := { currentContextTokens := 7 }

def analyticsY : GeminiSessionAnalytics := { currentContextTokens := 9 }

def analyticsX1 : GeminiSessionAnalytics := { currentContextTokens := 7, lastFileModTime := 7 }

def analyticsY1 : GeminiSessionAnalytics := { currentContextTokens := 9, lastFileModTime := 7 }

def fileM : ChatFile := ⟨"session-2025-04-04T00-00-mnop3456.json", 5, .malformed⟩

def fsM : GeminiFS := ⟨[⟨"hashM", [fileM]⟩]⟩

def hashFnM : String → String := fun _ => "hashM"

def analyticsM5 : GeminiSessionAnalytics := { lastFileModTime := 5 }

def fileN1 : ChatFile := ⟨"session-2025-05-05T00-00-qrst7890.json", 3, .malformed⟩

def fileN2 : ChatFile := ⟨"session-2025-05-06T00-00-qrst7890.json", 4, .malformed⟩

def chatsN : List ChatFile := [fileN1, fileN2, ⟨"other.txt", 9, .malformed⟩]

def fileY : ChatFile := ⟨"session-2025-06-06T00-00-uvwx1234.json", 3, .malformed⟩

def projX : ProjectDir := ⟨"hashX", []⟩

def projY : ProjectDir := ⟨"hashY", [fileY]⟩

def fsC5 : GeminiFS := ⟨[projX, projY]⟩

def hashFnC5 : String → String := fun _ => "hashX"

/-!
Supporting lemmas about the message-accumulation loop, the success path
of the refresh, the lexicographic order, and the two file-selection
scans.
-/

lemma accumulateGeminiMessages_cons (a : GeminiSessionAnalytics) (m : GeminiMessage)
    (msgs : List GeminiMessage) :
    accumulateGeminiMessages a (m :: msgs) = accumulateGeminiMessages (stepGeminiMessage a m) msgs :=
  rfl

lemma stepGeminiMessage_lastFileModTime (a : GeminiSessionAnalytics) (m : GeminiMessage) :
    (stepGeminiMessage a m).lastFileModTime = a.lastFileModTime := by
  unfold stepGeminiMessage
  split
  · split <;> rfl
  · rfl

lemma accumulateGeminiMessages_lastFileModTime (msgs : List GeminiMessage) :
    ∀ a : GeminiSessionAnalytics,
      (accumulateGeminiMessages a msgs).lastFileModTime = a.lastFileModTime := by
  induction msgs with
  | nil => intro a; rfl
  | cons m rest ih =>
    intro a
    show (accumulateGeminiMessages (stepGeminiMessage a m) rest).lastFileModTime = _
    rw [ih, stepGeminiMessage_lastFileModTime]

lemma applyGeminiParse_lastFileModTime (a : GeminiSessionAnalytics) (mtime : Nat)
    (sess : GeminiSessionData) :
    (applyGeminiParse a mtime sess).lastFileModTime = mtime := by
  unfold applyGeminiParse
  rw [accumulateGeminiMessages_lastFileModTime]
  split <;> rfl

lemma update_ok_parsed {hashFn : String → String} {fs : GeminiFS} {pp sid : String}
    {a a1 : GeminiSessionAnalytics}
    (h : UpdateGeminiAnalyticsFromDisk hashFn fs pp sid a = ⟨none, a1, true⟩) :
    ∃ f sess, locateGeminiSession hashFn fs pp sid = some f ∧
      f.content = FileContent.valid sess ∧ a1 = applyGeminiParse a f.mtime sess := by
  unfold UpdateGeminiAnalyticsFromDisk at h
  split at h
  · cases h
  · split at h
    · cases h
    · rename_i f heq
      split at h
      · cases h
      · split at h
        · cases h
        · cases h
        · rename_i sess hcont
          exact ⟨f, sess, heq, hcont, (UpdateOutcome.mk.injEq _ _ _ _ _ _).mp h |>.2.1.symm⟩

lemma stepGeminiMessage_skip {m : GeminiMessage} (hm : (m.type == "gemini") = false)
    (a : GeminiSessionAnalytics) : stepGeminiMessage a m = a := by
  unfold stepGeminiMessage
  rw [hm]
  simp

lemma accumulateGeminiMessages_filter (msgs : List GeminiMessage) :
    ∀ a : GeminiSessionAnalytics,
      accumulateGeminiMessages a msgs =
        accumulateGeminiMessages a (msgs.filter (fun m => m.type == "gemini")) := by
  induction msgs with
  | nil => intro a; rfl
  | cons m rest ih =>
    intro a
    cases hm : m.type == "gemini" with
    | true =>
      show accumulateGeminiMessages (stepGeminiMessage a m) rest = _
      rw [List.filter_cons]
      simp only [hm, if_true]
      show _ = accumulateGeminiMessages (stepGeminiMessage a m) (rest.filter _)
      exact ih _
    | false =>
      show accumulateGeminiMessages (stepGeminiMessage a m) rest = _
      rw [List.filter_cons]
      simp only [hm, Bool.false_eq_true, if_false]
      rw [stepGeminiMessage_skip hm]
      exact ih a

lemma stepGeminiMessage_gemini_fields {m : GeminiMessage} (hm : (m.type == "gemini") = true)
    (x y : GeminiSessionAnalytics)
    (h1 : x.inputTokens = y.inputTokens) (h2 : x.outputTokens = y.outputTokens)
    (h3 : x.totalTurns = y.totalTurns) (h4 : x.model = y.model) :
    (stepGeminiMessage x m).inputTokens = (stepGeminiMessage y m).inputTokens ∧
    (stepGeminiMessage x m).outputTokens = (stepGeminiMessage y m).outputTokens ∧
    (stepGeminiMessage x m).totalTurns = (stepGeminiMessage y m).totalTurns ∧
    (stepGeminiMessage x m).model = (stepGeminiMessage y m).model ∧
    (stepGeminiMessage x m).currentContextTokens = (stepGeminiMessage y m).currentContextTokens := by
  unfold stepGeminiMessage
  rw [hm]
  split_ifs <;> simp_all

lemma accumulateGeminiMessages_congrFive (msgs : List GeminiMessage) :
    ∀ x y : GeminiSessionAnalytics,
      x.inputTokens = y.inputTokens → x.outputTokens = y.outputTokens →
      x.totalTurns = y.totalTurns → x.model = y.model →
      x.currentContextTokens = y.currentContextTokens →
      (accumulateGeminiMessages x msgs).inputTokens = (accumulateGeminiMessages y msgs).inputTokens ∧
      (accumulateGeminiMessages x msgs).outputTokens = (accumulateGeminiMessages y msgs).outputTokens ∧
      (accumulateGeminiMessages x msgs).totalTurns = (accumulateGeminiMessages y msgs).totalTurns ∧
      (accumulateGeminiMessages x msgs).model = (accumulateGeminiMessages y msgs).model ∧
      (accumulateGeminiMessages x msgs).currentContextTokens =
        (accumulateGeminiMessages y msgs).currentContextTokens := by
  induction msgs with
  | nil => exact fun x y h1 h2 h3 h4 h5 => ⟨h1, h2, h3, h4, h5⟩
  | cons m rest ih =>
    intro x y h1 h2 h3 h4 h5
    simp only [accumulateGeminiMessages_cons]
    cases hm : m.type == "gemini" with
    | true =>
      obtain ⟨e1, e2, e3, e4, e5⟩ := stepGeminiMessage_gemini_fields hm x y h1 h2 h3 h4
      exact ih _ _ e1 e2 e3 e4 e5
    | false =>
      rw [stepGeminiMessage_skip hm, stepGeminiMessage_skip hm]
      exact ih _ _ h1 h2 h3 h4 h5

lemma accumulateGeminiMessages_congrFour (msgs : List GeminiMessage) :
    ∀ x y : GeminiSessionAnalytics,
      x.inputTokens = y.inputTokens → x.outputTokens = y.outputTokens →
      x.totalTurns = y.totalTurns → x.model = y.model →
      (accumulateGeminiMessages x msgs).inputTokens = (accumulateGeminiMessages y msgs).inputTokens ∧
      (accumulateGeminiMessages x msgs).outputTokens = (accumulateGeminiMessages y msgs).outputTokens ∧
      (accumulateGeminiMessages x msgs).totalTurns = (accumulateGeminiMessages y msgs).totalTurns ∧
      (accumulateGeminiMessages x msgs).model = (accumulateGeminiMessages y msgs).model ∧
      ((accumulateGeminiMessages x msgs).currentContextTokens =
         (accumulateGeminiMessages y msgs).currentContextTokens ∨
       ((accumulateGeminiMessages x msgs).currentContextTokens = x.currentContextTokens ∧
        (accumulateGeminiMessages y msgs).currentContextTokens = y.currentContextTokens)) := by
  induction msgs with
  | nil => exact fun x y h1 h2 h3 h4 => ⟨h1, h2, h3, h4, Or.inr ⟨rfl, rfl⟩⟩
  | cons m rest ih =>
    intro x y h1 h2 h3 h4
    simp only [accumulateGeminiMessages_cons]
    cases hm : m.type == "gemini" with
    | true =>
      obtain ⟨e1, e2, e3, e4, e5⟩ := stepGeminiMessage_gemini_fields hm x y h1 h2 h3 h4
      obtain ⟨r1, r2, r3, r4, r5⟩ := accumulateGeminiMessages_congrFive rest _ _ e1 e2 e3 e4 e5
      exact ⟨r1, r2, r3, r4, Or.inl r5⟩
    | false =>
      rw [stepGeminiMessage_skip hm, stepGeminiMessage_skip hm]
      exact ih _ _ h1 h2 h3 h4

lemma goLeChars_total : ∀ as bs : List Char, goLeChars as bs = true ∨ goLeChars bs as = true := by
  intro as
  induction as with
  | nil => exact fun bs => Or.inl rfl
  | cons a as ih =>
    intro bs
    cases bs with
    | nil => exact Or.inr rfl
    | cons b bs =>
      simp only [goLeChars]
      split_ifs <;>
        first
        | exact Or.inl rfl
        | exact Or.inr rfl
        | exact ih bs

lemma goLeChars_trans : ∀ as bs cs : List Char,
    goLeChars as bs = true → goLeChars bs cs = true → goLeChars as cs = true := by
  intro as
  induction as with
  | nil => intro bs cs _ _; rfl
  | cons a as ih =>
    intro bs cs hab hbc
    cases bs with
    | nil => simp [goLeChars] at hab
    | cons b bs =>
      cases cs with
      | nil => simp [goLeChars] at hbc
      | cons c cs =>
        simp only [goLeChars] at hab hbc ⊢
        split_ifs at hab hbc ⊢ <;>
          first
          | rfl
          | (exact ih bs cs hab hbc)
          | omega

instance : IsTotal String goStrLe :=
  ⟨fun a b => goLeChars_total a.toList b.toList⟩

instance : IsTrans String goStrLe :=
  ⟨fun a b c => goLeChars_trans a.toList b.toList c.toList⟩

lemma pickNewest_none : ∀ (l : List ChatFile) (acc : Option ChatFile),
    pickNewest acc l = none → acc = none ∧ ∀ f ∈ l, f.mtime = 0 := by
  intro l
  induction l with
  | nil =>
    intro acc h
    cases acc with
    | none => exact ⟨rfl, by simp⟩
    | some g => cases h
  | cons f rest ih =>
    intro acc h
    cases acc with
    | none =>
      by_cases hf : 0 < f.mtime
      · rw [show pickNewest none (f :: rest) = pickNewest (if 0 < f.mtime then some f else none) rest from rfl,
          if_pos hf] at h
        obtain ⟨hc, _⟩ := ih _ h
        cases hc
      · rw [show pickNewest none (f :: rest) = pickNewest (if 0 < f.mtime then some f else none) rest from rfl,
          if_neg hf] at h
        obtain ⟨_, hall⟩ := ih _ h
        refine ⟨rfl, ?_⟩
        intro g hg
        rcases List.mem_cons.mp hg with rfl | hg
        · omega
        · exact hall g hg
    | some g =>
      rw [show pickNewest (some g) (f :: rest) = pickNewest (if g.mtime < f.mtime then some f else some g) rest from rfl] at h
      obtain ⟨hc, _⟩ := ih _ h
      split_ifs at hc

lemma pickNewest_some : ∀ (l : List ChatFile) (acc : Option ChatFile) (x : ChatFile),
    pickNewest acc l = some x →
    (acc = some x ∨ x ∈ l) ∧ (∀ f ∈ l, f.mtime ≤ x.mtime) ∧
    (∀ g, acc = some g → g.mtime ≤ x.mtime) := by
  intro l
  induction l with
  | nil =>
    intro acc x h
    cases acc with
    | none => cases h
    | some g =>
      obtain rfl : g = x := Option.some.inj h
      exact ⟨Or.inl rfl, by simp, fun g2 hg2 => by cases Option.some.inj hg2; exact le_refl _⟩
  | cons f rest ih =>
    intro acc x h
    cases acc with
    | none =>
      rw [show pickNewest none (f :: rest) = pickNewest (if 0 < f.mtime then some f else none) rest from rfl] at h
      split_ifs at h with hf
      · obtain ⟨hmem, hbound, hacc⟩ := ih _ _ h
        refine ⟨?_, ?_, ?_⟩
        · rcases hmem with hx | hx
          · exact Or.inr (List.mem_cons.mpr (Or.inl (Option.some.inj hx).symm))
          · exact Or.inr (List.mem_cons.mpr (Or.inr hx))
        · intro g hg
          rcases List.mem_cons.mp hg with rfl | hg
          · exact hacc g rfl
          · exact hbound g hg
        · intro g hg
          cases hg
      · obtain ⟨hmem, hbound, _⟩ := ih _ _ h
        refine ⟨?_, ?_, ?_⟩
        · rcases hmem with hx | hx
          · cases hx
          · exact Or.inr (List.mem_cons.mpr (Or.inr hx))
        · intro g hg
          rcases List.mem_cons.mp hg with rfl | hg
          · have : g.mtime = 0 := by omega
            omega
          · exact hbound g hg
        · intro g hg
          cases hg
    | some g0 =>
      rw [show pickNewest (some g0) (f :: rest) = pickNewest (if g0.mtime < f.mtime then some f else some g0) rest from rfl] at h
      split_ifs at h with hf
      · obtain ⟨hmem, hbound, hacc⟩ := ih _ _ h
        refine ⟨?_, ?_, ?_⟩
        · rcases hmem with hx | hx
          · exact Or.inr (List.mem_cons.mpr (Or.inl (Option.some.inj hx).symm))
          · exact Or.inr (List.mem_cons.mpr (Or.inr hx))
        · intro g hg
          rcases List.mem_cons.mp hg with rfl | hg
          · exact hacc g rfl
          · exact hbound g hg
        · intro g hg
          have hle : f.mtime ≤ x.mtime := hacc f rfl
          cases hg
          omega
      · obtain ⟨hmem, hbound, hacc⟩ := ih _ _ h
        refine ⟨?_, ?_, ?_⟩
        · rcases hmem with hx | hx
          · exact Or.inl hx
          · exact Or.inr (List.mem_cons.mpr (Or.inr hx))
        · intro g hg
          rcases List.mem_cons.mp hg with rfl | hg
          · have hle : g0.mtime ≤ x.mtime := hacc g0 rfl
            omega
          · exact hbound g hg
        · intro g hg
          cases hg
          exact hacc g0 rfl

lemma findNewestFile_max : ∀ (files : List ChatFile),
    (∃ f ∈ files, 0 < f.mtime) →
    ∃ r ∈ files, findNewestFile files = some r ∧ ∀ g ∈ files, g.mtime ≤ r.mtime := by
  intro files hpos
  match files with
  | [] => simp at hpos
  | [f] =>
    refine ⟨f, by simp, rfl, ?_⟩
    intro g hg
    rcases List.mem_cons.mp hg with rfl | hg
    · exact le_refl _
    · simp at hg
  | f1 :: f2 :: rest =>
    cases hp : pickNewest none (f1 :: f2 :: rest) with
    | none =>
      exfalso
      obtain ⟨_, hall⟩ := pickNewest_none _ _ hp
      obtain ⟨f, hf, hfpos⟩ := hpos
      have := hall f hf
      omega
    | some x =>
      obtain ⟨hmem, hbound, _⟩ := pickNewest_some _ _ _ hp
      rcases hmem with hx | hx
      · cases hx
      · exact ⟨x, hx, hp, hbound⟩

lemma findNewestFile_none_of_pos {files : List ChatFile}
    (hpos : ∀ f ∈ files, 0 < f.mtime) (h : findNewestFile files = none) : files = [] := by
  cases hf : files with
  | nil => rfl
  | cons f rest =>
    exfalso
    subst hf
    obtain ⟨r, hr, hsome, _⟩ := findNewestFile_max (f :: rest) ⟨f, by simp, hpos f (by simp)⟩
    rw [hsome] at h
    cases h

lemma findNewestFile_some_pos {files : List ChatFile} {r : ChatFile}
    (hpos : ∀ f ∈ files, 0 < f.mtime) (h : findNewestFile files = some r) :
    r ∈ files ∧ 0 < r.mtime ∧ ∀ g ∈ files, g.mtime ≤ r.mtime := by
  cases files with
  | nil => cases h
  | cons f0 fs =>
    obtain ⟨x, hx, hxeq, hbound⟩ :=
      findNewestFile_max (f0 :: fs) ⟨f0, by simp, hpos f0 (by simp)⟩
    rw [hxeq] at h
    obtain rfl : x = r := Option.some.inj h
    exact ⟨hx, hpos x hx, hbound⟩

lemma scanProjects_cons (p8 : String) (acc : Option (String × ChatFile)) (p : ProjectDir)
    (rest : List ProjectDir) :
    scanProjects p8 acc (p :: rest) =
      scanProjects p8
        (match findNewestFile (globChats p.chats p8) with
         | none => acc
         | some f =>
           match acc with
           | none => if 0 < f.mtime then some (p.hash, f) else none
           | some (h, g) => if g.mtime < f.mtime then some (p.hash, f) else some (h, g)) rest :=
  rfl

lemma scanProjects_none (p8 : String) : ∀ (l : List ProjectDir) (acc : Option (String × ChatFile)),
    (∀ p ∈ l, ∀ f ∈ globChats p.chats p8, 0 < f.mtime) →
    scanProjects p8 acc l = none →
    acc = none ∧ ∀ p ∈ l, globChats p.chats p8 = [] := by
  intro l
  induction l with
  | nil =>
    intro acc _ h
    exact ⟨h, by simp⟩
  | cons p rest ih =>
    intro acc hpos h
    rw [scanProjects_cons] at h
    have hposp : ∀ f ∈ globChats p.chats p8, 0 < f.mtime :=
      fun f hf => hpos p (by simp) f hf
    have hposr : ∀ q ∈ rest, ∀ f ∈ globChats q.chats p8, 0 < f.mtime :=
      fun q hq f hf => hpos q (by simp [hq]) f hf
    cases hfind : findNewestFile (globChats p.chats p8) with
    | none =>
      rw [hfind] at h
      obtain ⟨hacc, hall⟩ := ih _ hposr h
      have hpe : globChats p.chats p8 = [] := findNewestFile_none_of_pos hposp hfind
      refine ⟨hacc, ?_⟩
      intro q hq
      rcases List.mem_cons.mp hq with rfl | hq
      · exact hpe
      · exact hall q hq
    | some r =>
      exfalso
      rw [hfind] at h
      obtain ⟨hrmem, hrpos, hrbound⟩ := findNewestFile_some_pos hposp hfind
      cases acc with
      | none =>
        replace h : scanProjects p8 (if 0 < r.mtime then some (p.hash, r) else none) rest = none := h
        rw [if_pos hrpos] at h
        obtain ⟨hacc, _⟩ := ih _ hposr h
        cases hacc
      | some g0 =>
        obtain ⟨h0, g0⟩ := g0
        replace h : scanProjects p8
            (if g0.mtime < r.mtime then some (p.hash, r) else some (h0, g0)) rest = none := h
        split_ifs at h <;>
          · obtain ⟨hacc, _⟩ := ih _ hposr h
            cases hacc

lemma scanProjects_some (p8 : String) : ∀ (l : List ProjectDir) (acc : Option (String × ChatFile))
    (hh : String) (x : ChatFile),
    (∀ p ∈ l, ∀ f ∈ globChats p.chats p8, 0 < f.mtime) →
    scanProjects p8 acc l = some (hh, x) →
    (acc = some (hh, x) ∨ ∃ p, p ∈ l ∧ p.hash = hh ∧ x ∈ globChats p.chats p8) ∧
    (∀ p ∈ l, ∀ f ∈ globChats p.chats p8, f.mtime ≤ x.mtime) ∧
    (∀ g0 : String × ChatFile, acc = some g0 → g0.2.mtime ≤ x.mtime) := by
  intro l
  induction l with
  | nil =>
    intro acc hh x _ h
    refine ⟨Or.inl h, by simp, ?_⟩
    intro g0 hg0
    rw [hg0] at h
    obtain rfl : g0 = (hh, x) := Option.some.inj h
    exact le_refl _
  | cons p rest ih =>
    intro acc hh x hpos h
    rw [scanProjects_cons] at h
    have hposp : ∀ f ∈ globChats p.chats p8, 0 < f.mtime :=
      fun f hf => hpos p (by simp) f hf
    have hposr : ∀ q ∈ rest, ∀ f ∈ globChats q.chats p8, 0 < f.mtime :=
      fun q hq f hf => hpos q (by simp [hq]) f hf
    cases hfind : findNewestFile (globChats p.chats p8) with
    | none =>
      rw [hfind] at h
      have hpe : globChats p.chats p8 = [] := findNewestFile_none_of_pos hposp hfind
      obtain ⟨hmem, hbound, hacc⟩ := ih _ _ _ hposr h
      refine ⟨?_, ?_, hacc⟩
      · rcases hmem with hm | ⟨q, hq, hqh, hqx⟩
        · exact Or.inl hm
        · exact Or.inr ⟨q, by simp [hq], hqh, hqx⟩
      · intro q hq f hf
        rcases List.mem_cons.mp hq with rfl | hq
        · rw [hpe] at hf
          simp at hf
        · exact hbound q hq f hf
    | some r =>
      rw [hfind] at h
      obtain ⟨hrmem, hrpos, hrbound⟩ := findNewestFile_some_pos hposp hfind
      cases acc with
      | none =>
        replace h : scanProjects p8 (if 0 < r.mtime then some (p.hash, r) else none) rest =
            some (hh, x) := h
        rw [if_pos hrpos] at h
        obtain ⟨hmem, hbound, hacc⟩ := ih _ _ _ hposr h
        have hrx : r.mtime ≤ x.mtime := hacc (p.hash, r) rfl
        refine ⟨?_, ?_, ?_⟩
        · rcases hmem with hm | ⟨q, hq, hqh, hqx⟩
          · obtain ⟨he1, he2⟩ := Prod.mk.injEq .. ▸ Option.some.inj hm
            exact Or.inr ⟨p, by simp, he1, he2 ▸ hrmem⟩
          · exact Or.inr ⟨q, by simp [hq], hqh, hqx⟩
        · intro q hq f hf
          rcases List.mem_cons.mp hq with rfl | hq
          · exact le_trans (hrbound f hf) hrx
          · exact hbound q hq f hf
        · intro g0 hg0
          cases hg0
      | some acc0 =>
        obtain ⟨h0, g0⟩ := acc0
        replace h : scanProjects p8
            (if g0.mtime < r.mtime then some (p.hash, r) else some (h0, g0)) rest =
            some (hh, x) := h
        split_ifs at h with hcmp
        · obtain ⟨hmem, hbound, hacc⟩ := ih _ _ _ hposr h
          have hrx : r.mtime ≤ x.mtime := hacc (p.hash, r) rfl
          refine ⟨?_, ?_, ?_⟩
          · rcases hmem with hm | ⟨q, hq, hqh, hqx⟩
            · obtain ⟨he1, he2⟩ := Prod.mk.injEq .. ▸ Option.some.inj hm
              exact Or.inr ⟨p, by simp, he1, he2 ▸ hrmem⟩
            · exact Or.inr ⟨q, by simp [hq], hqh, hqx⟩
          · intro q hq f hf
            rcases List.mem_cons.mp hq with rfl | hq
            · exact le_trans (hrbound f hf) hrx
            · exact hbound q hq f hf
          · intro g1 hg1
            obtain rfl : (h0, g0) = g1 := Option.some.inj hg1
            show g0.mtime ≤ x.mtime
            omega
        · obtain ⟨hmem, hbound, hacc⟩ := ih _ _ _ hposr h
          have hgx : g0.mtime ≤ x.mtime := hacc (h0, g0) rfl
          have hrg : r.mtime ≤ g0.mtime := by omega
          refine ⟨?_, ?_, ?_⟩
          · rcases hmem with hm | ⟨q, hq, hqh, hqx⟩
            · exact Or.inl hm
            · exact Or.inr ⟨q, by simp [hq], hqh, hqx⟩
          · intro q hq f hf
            rcases List.mem_cons.mp hq with rfl | hq
            · exact le_trans (hrbound f hf) (le_trans hrg hgx)
            · exact hbound q hq f hf
          · intro g1 hg1
            obtain rfl : (h0, g0) = g1 := Option.some.inj hg1
            exact hgx

/-!
The claims.
-/

/-- Claim C1: after a refresh that parsed the transcript and recorded a
non-zero mtime fingerprint, an immediately repeated refresh over the
unchanged file system returns nil, performs no parse, and leaves every
field of the snapshot exactly as the first call left it — so exactly one
parse happens across the two calls. -/
theorem refresh_cache_hit_second_call (hashFn : String → String) (fs : GeminiFS)
    (pp sid : String) (a a1 : GeminiSessionAnalytics)
    (h1 : UpdateGeminiAnalyticsFromDisk hashFn fs pp sid a = ⟨none, a1, true⟩)
    (h2 : a1.lastFileModTime ≠ 0) :
    UpdateGeminiAnalyticsFromDisk hashFn fs pp sid a1 = ⟨none, a1, false⟩ := by
  obtain ⟨f, sess, hloc, hcont, hres⟩ := update_ok_parsed h1
  have hm : a1.lastFileModTime = f.mtime := by
    rw [hres, applyGeminiParse_lastFileModTime]
  have hguard : ¬(sid = "" ∨ sid.length < 8) := by
    intro hg
    unfold UpdateGeminiAnalyticsFromDisk at h1
    rw [if_pos hg] at h1
    cases h1
  unfold UpdateGeminiAnalyticsFromDisk
  rw [if_neg hguard]
  simp only [hloc]
  rw [if_pos ⟨h2, hm.symm⟩]

/-- Concrete instance of claim C1 on a one-file file system. -/
theorem refresh_cache_hit_second_call_witness :
    UpdateGeminiAnalyticsFromDisk hashFnW fsW "/p" "abcd1234efgh" analyticsW1 =
      ⟨none, analyticsW1, false⟩ :=
  refresh_cache_hit_second_call hashFnW fsW "/p" "abcd1234efgh" analyticsW0 analyticsW1
    (by decide) (by decide)

/-- Claim C2: `SetGeminiYoloMode v` followed by a refresh on a freshly
attached instance (unset in-memory flag, same session environment)
yields an in-memory flag equal to `v`: the boolean round-trips through
the `"true"`/`"false"` rendering in the multiplexer environment. -/
theorem yolo_mode_round_trip (inst : GeminiInstance) (v : Bool) :
    (UpdateGeminiSession ⟨none, (SetGeminiYoloMode inst v).tmuxEnv⟩).geminiYoloMode = some v := by
  cases v <;> rfl

/-- Claim C3: a successful refresh of a transcript whose agent
(`"gemini"`) turns carry input tokens 10, 20, 30 and output tokens
1, 2, 3 in order, plus any non-agent turns, yields InputTokens 60,
OutputTokens 6, TotalTurns 3, CurrentContextTokens 30, and a Model equal
to the most recent agent turn's non-empty model name. -/
theorem three_agent_turn_aggregation (hashFn : String → String) (fs : GeminiFS)
    (pp sid : String) (a a1 : GeminiSessionAnalytics) (f : ChatFile)
    (sess : GeminiSessionData) (mo1 mo2 mo3 : String)
    (h1 : UpdateGeminiAnalyticsFromDisk hashFn fs pp sid a = ⟨none, a1, true⟩)
    (hloc : locateGeminiSession hashFn fs pp sid = some f)
    (hcont : f.content = FileContent.valid sess)
    (hmsgs : sess.messages.filter (fun m => m.type == "gemini") =
      [⟨"gemini", mo1, 10, 1⟩, ⟨"gemini", mo2, 20, 2⟩, ⟨"gemini", mo3, 30, 3⟩]) :
    a1.inputTokens = 60 ∧ a1.outputTokens = 6 ∧ a1.totalTurns = 3 ∧
    a1.currentContextTokens = 30 ∧
    a1.model = (if mo3 ≠ "" then mo3 else if mo2 ≠ "" then mo2
                else if mo1 ≠ "" then mo1 else "") := by
  obtain ⟨f', sess', hloc', hcont', hres⟩ := update_ok_parsed h1
  rw [hloc] at hloc'
  obtain rfl : f = f' := Option.some.inj hloc'
  rw [hcont] at hcont'
  obtain rfl : sess = sess' := by
    cases hcont'
    rfl
  subst hres
  unfold applyGeminiParse
  rw [accumulateGeminiMessages_filter, hmsgs]
  simp only [accumulateGeminiMessages, List.foldl, stepGeminiMessage]
  split_ifs <;> simp_all

/-- Concrete instance of claim C3 on a four-message transcript. -/
theorem three_agent_turn_aggregation_witness :
    analyticsC3.inputTokens = 60 ∧ analyticsC3.outputTokens = 6 ∧
    analyticsC3.totalTurns = 3 ∧ analyticsC3.currentContextTokens = 30 ∧
    analyticsC3.model = (if "m-c" ≠ "" then "m-c" else if "" ≠ "" then ""
                         else if "m-a" ≠ "" then "m-a" else "") :=
  three_agent_turn_aggregation hashFnC3 fsC3 "/p" "efgh5678" analyticsW0 analyticsC3
    fileC3 sessC3 "m-a" "" "m-c" (by decide) (by decide) (by decide) (by decide)

/-- Claim C4 (amended): after a successful reparse, InputTokens,
OutputTokens, TotalTurns and Model are functions of the transcript
content alone; CurrentContextTokens is likewise except when the
transcript has no agent turn, in which case both runs retain their
respective prior values. -/
theorem reparse_counters_from_transcript_only (hashFn : String → String) (fs : GeminiFS)
    (pp sid : String) (a b a1 b1 : GeminiSessionAnalytics)
    (ha : UpdateGeminiAnalyticsFromDisk hashFn fs pp sid a = ⟨none, a1, true⟩)
    (hb : UpdateGeminiAnalyticsFromDisk hashFn fs pp sid b = ⟨none, b1, true⟩) :
    a1.inputTokens = b1.inputTokens ∧ a1.outputTokens = b1.outputTokens ∧
    a1.totalTurns = b1.totalTurns ∧ a1.model = b1.model ∧
    (a1.currentContextTokens = b1.currentContextTokens ∨
      (a1.currentContextTokens = a.currentContextTokens ∧
       b1.currentContextTokens = b.currentContextTokens)) := by
  obtain ⟨f, sess, hloc, hcont, hres⟩ := update_ok_parsed ha
  obtain ⟨f', sess', hloc', hcont', hres'⟩ := update_ok_parsed hb
  rw [hloc] at hloc'
  obtain rfl : f = f' := Option.some.inj hloc'
  rw [hcont] at hcont'
  obtain rfl : sess = sess' := by cases hcont'; rfl
  subst hres
  subst hres'
  unfold applyGeminiParse
  split_ifs with hd
  · exact accumulateGeminiMessages_congrFour sess.messages _ _ rfl rfl rfl rfl
  · exact accumulateGeminiMessages_congrFour sess.messages _ _ rfl rfl rfl rfl

/-- Concrete instance of the amended claim C4. -/
theorem reparse_counters_from_transcript_only_witness :
    analyticsX1.inputTokens = analyticsY1.inputTokens ∧
    analyticsX1.outputTokens = analyticsY1.outputTokens ∧
    analyticsX1.totalTurns = analyticsY1.totalTurns ∧
    analyticsX1.model = analyticsY1.model ∧
    (analyticsX1.currentContextTokens = analyticsY1.currentContextTokens ∨
      (analyticsX1.currentContextTokens = analyticsX.currentContextTokens ∧
       analyticsY1.currentContextTokens = analyticsY.currentContextTokens)) :=
  reparse_counters_from_transcript_only hashFnE fsE "/p" "ijkl9012"
    analyticsX analyticsY analyticsX1 analyticsY1 (by decide) (by decide)

/-- Claim C4 counterexample: two successful reparses of the same
transcript (no agent turns) from different prior snapshots leave
different CurrentContextTokens values, so that field is not a function
of the transcript content only. -/
theorem reparse_context_depends_on_prior :
    (UpdateGeminiAnalyticsFromDisk hashFnE fsE "/p" "ijkl9012" analyticsX).err = none ∧
    (UpdateGeminiAnalyticsFromDisk hashFnE fsE "/p" "ijkl9012" analyticsX).parsed = true ∧
    (UpdateGeminiAnalyticsFromDisk hashFnE fsE "/p" "ijkl9012" analyticsY).err = none ∧
    (UpdateGeminiAnalyticsFromDisk hashFnE fsE "/p" "ijkl9012" analyticsY).parsed = true ∧
    (UpdateGeminiAnalyticsFromDisk hashFnE fsE "/p" "ijkl9012" analyticsX).analytics.currentContextTokens ≠
      (UpdateGeminiAnalyticsFromDisk hashFnE fsE "/p" "ijkl9012" analyticsY).analytics.currentContextTokens := by
  decide

/-- Claim C5: when the expected project-hash directory has no match for
the identifier pattern but some project-hash directory under the root
does, the locator's fallback full scan returns a matching file with the
most recent modification time across all project-hash directories. -/
theorem fallback_scan_returns_newest (hashFn : String → String) (fs : GeminiFS)
    (pp sid : String)
    (hlen : 8 ≤ sid.length)
    (hexp : globProject fs (hashFn pp) (sid.take 8) = [])
    (hpos : ∀ p ∈ fs.projects, ∀ f ∈ globChats p.chats (sid.take 8), 0 < f.mtime)
    (p0 : ProjectDir) (f0 : ChatFile) (hp0 : p0 ∈ fs.projects)
    (hf0 : f0 ∈ globChats p0.chats (sid.take 8)) :
    ∃ q ∈ fs.projects, ∃ r ∈ globChats q.chats (sid.take 8),
      locateGeminiSession hashFn fs pp sid = some r ∧
      ∀ q2 ∈ fs.projects, ∀ g ∈ globChats q2.chats (sid.take 8), g.mtime ≤ r.mtime := by
  have hne : sid ≠ "" := by
    intro he
    rw [he] at hlen
    have h0 : ("" : String).length = 0 := rfl
    omega
  have hloc : locateGeminiSession hashFn fs pp sid =
      (findGeminiSessionInAllProjects fs sid).map Prod.snd := by
    unfold locateGeminiSession
    rw [hexp]
    rfl
  have hfall : findGeminiSessionInAllProjects fs sid =
      scanProjects (sid.take 8) none fs.projects := by
    unfold findGeminiSessionInAllProjects
    rw [if_neg]
    simp only [Bool.or_eq_true, decide_eq_true_eq]
    push_neg
    exact ⟨hne, by omega⟩
  cases hscan : scanProjects (sid.take 8) none fs.projects with
  | none =>
    exfalso
    obtain ⟨_, hall⟩ := scanProjects_none _ _ _ hpos hscan
    rw [hall p0 hp0] at hf0
    simp at hf0
  | some hx =>
    obtain ⟨hh, x⟩ := hx
    obtain ⟨hmem, hbound, _⟩ := scanProjects_some _ _ _ _ _ hpos hscan
    rcases hmem with hm | ⟨q, hq, hqh, hqx⟩
    · cases hm
    · refine ⟨q, hq, x, hqx, ?_, hbound⟩
      rw [hloc, hfall, hscan]
      rfl

/-- Concrete instance of claim C5 with the match in another project. -/
theorem fallback_scan_returns_newest_witness :
    ∃ q ∈ fsC5.projects, ∃ r ∈ globChats q.chats ("uvwx1234".take 8),
      locateGeminiSession hashFnC5 fsC5 "/p" "uvwx1234" = some r ∧
      ∀ q2 ∈ fsC5.projects, ∀ g ∈ globChats q2.chats ("uvwx1234".take 8), g.mtime ≤ r.mtime :=
  fallback_scan_returns_newest hashFnC5 fsC5 "/p" "uvwx1234" (by decide) (by decide)
    (by decide) projY fileY (by decide) (by decide)

/-- Claim C6: with no matching file the locator glob step returns
nothing, and when some match has a non-zero modification time it returns
a matching file whose modification time is maximal among the matches
(tie-breaking left to enumeration order). -/
theorem locator_newest_match (chats : List ChatFile) (p8 : String) :
    (globChats chats p8 = [] → findNewestFile (globChats chats p8) = none) ∧
    ((∃ f ∈ globChats chats p8, 0 < f.mtime) →
      ∃ r ∈ globChats chats p8, findNewestFile (globChats chats p8) = some r ∧
        ∀ g ∈ globChats chats p8, g.mtime ≤ r.mtime) := by
  constructor
  · intro h
    rw [h]
    rfl
  · exact findNewestFile_max _

/-- Concrete instance of claim C6 with two matching files. -/
theorem locator_newest_match_witness :
    ∃ r ∈ globChats chatsN "qrst7890", findNewestFile (globChats chatsN "qrst7890") = some r ∧
      ∀ g ∈ globChats chatsN "qrst7890", g.mtime ≤ r.mtime :=
  (locator_newest_match chatsN "qrst7890").2 (by decide)

/-- Claim C7 (amended): if the located transcript is unreadable or
malformed and the fingerprint check does not short-circuit (no recorded
fingerprint, or a differing mtime), the refresh returns an error and
leaves every field of the snapshot, including the fingerprint,
unchanged. -/
theorem bad_transcript_preserves_snapshot (hashFn : String → String) (fs : GeminiFS)
    (pp sid : String) (a : GeminiSessionAnalytics) (f : ChatFile)
    (hloc : locateGeminiSession hashFn fs pp sid = some f)
    (hbad : f.content = FileContent.unreadable ∨ f.content = FileContent.malformed)
    (hmiss : ¬(a.lastFileModTime ≠ 0 ∧ f.mtime = a.lastFileModTime)) :
    (UpdateGeminiAnalyticsFromDisk hashFn fs pp sid a).err.isSome = true ∧
    (UpdateGeminiAnalyticsFromDisk hashFn fs pp sid a).analytics = a := by
  unfold UpdateGeminiAnalyticsFromDisk
  by_cases hg : sid = "" ∨ sid.length < 8
  · rw [if_pos hg]
    exact ⟨rfl, rfl⟩
  · rw [if_neg hg]
    simp only [hloc]
    rw [if_neg hmiss]
    rcases hbad with hb | hb <;> rw [hb] <;> exact ⟨rfl, rfl⟩

/-- Concrete instance of the amended claim C7 on a malformed file. -/
theorem bad_transcript_preserves_snapshot_witness :
    (UpdateGeminiAnalyticsFromDisk hashFnM fsM "/p" "mnop3456" analyticsW0).err.isSome = true ∧
    (UpdateGeminiAnalyticsFromDisk hashFnM fsM "/p" "mnop3456" analyticsW0).analytics = analyticsW0 :=
  bad_transcript_preserves_snapshot hashFnM fsM "/p" "mnop3456" analyticsW0 fileM
    (by decide) (Or.inr rfl) (by decide)

/-- Claim C7 counterexample: a malformed located transcript whose mtime
equals the recorded non-zero fingerprint makes the refresh return nil
(cache hit), not an error, so the claim's unconditional error does not
hold. -/
theorem bad_transcript_cache_hit_no_error :
    locateGeminiSession hashFnM fsM "/p" "mnop3456" = some fileM ∧
    fileM.content = FileContent.malformed ∧
    UpdateGeminiAnalyticsFromDisk hashFnM fsM "/p" "mnop3456" analyticsM5 =
      ⟨none, analyticsM5, false⟩ := by
  decide

/-- Claim C8 (amended): for a non-empty override value the model list is
the comma-split entries, whitespace-trimmed, in ascending lexicographic
order — a permutation of the trimmed fields, with duplicates kept. -/
theorem override_models_trim_sort (s : String) (_h : s ≠ "") :
    List.Sorted goStrLe (geminiModelsFromOverride s) ∧
    List.Perm (geminiModelsFromOverride s) ((goSplit s ',').map goTrimSpace) :=
  ⟨List.sorted_insertionSort goStrLe _, List.perm_insertionSort goStrLe _⟩

/-- Concrete instance of the amended claim C8. -/
theorem override_models_trim_sort_witness :
    List.Sorted goStrLe (geminiModelsFromOverride "m1, m2,m1") ∧
    List.Perm (geminiModelsFromOverride "m1, m2,m1")
      ((goSplit "m1, m2,m1" ',').map goTrimSpace) :=
  override_models_trim_sort "m1, m2,m1" (by decide)

/-- Claim C8 counterexample: the override value `"m1, m2,m1"` yields
`["m1", "m1", "m2"]`, which is not deduplicated. -/
theorem override_models_keep_duplicates :
    geminiModelsFromOverride "m1, m2,m1" = ["m1", "m1", "m2"] ∧
    ¬(geminiModelsFromOverride "m1, m2,m1").Nodup := by
  decide

/-- Claim C9: a session identifier shorter than 8 characters is rejected
with a validation error for every file-system state (hence before any
I/O), and the snapshot is returned unchanged. -/
theorem short_session_id_rejected (hashFn : String → String) (fs : GeminiFS)
    (pp sid : String) (a : GeminiSessionAnalytics) (h : sid.length < 8) :
    UpdateGeminiAnalyticsFromDisk hashFn fs pp sid a = ⟨some "invalid session ID", a, false⟩ := by
  unfold UpdateGeminiAnalyticsFromDisk
  rw [if_pos (Or.inr h)]

/-- Concrete instance of claim C9. -/
theorem short_session_id_rejected_witness :
    UpdateGeminiAnalyticsFromDisk hashFnW fsW "/p" "abc" analyticsW0 =
      ⟨some "invalid session ID", analyticsW0, false⟩ :=
  short_session_id_rejected hashFnW fsW "/p" "abc" analyticsW0 (by decide)

/-- Claim C10: a successful reparse of a transcript with zero agent
turns zeroes InputTokens, OutputTokens and TotalTurns and clears Model,
but CurrentContextTokens keeps its value from the previous snapshot. -/
theorem zero_agent_turns_keep_context (hashFn : String → String) (fs : GeminiFS)
    (pp sid : String) (a a1 : GeminiSessionAnalytics) (f : ChatFile)
    (sess : GeminiSessionData)
    (h1 : UpdateGeminiAnalyticsFromDisk hashFn fs pp sid a = ⟨none, a1, true⟩)
    (hloc : locateGeminiSession hashFn fs pp sid = some f)
    (hcont : f.content = FileContent.valid sess)
    (hmsgs : sess.messages.filter (fun m => m.type == "gemini") = []) :
    a1.inputTokens = 0 ∧ a1.outputTokens = 0 ∧ a1.totalTurns = 0 ∧ a1.model = "" ∧
    a1.currentContextTokens = a.currentContextTokens := by
  obtain ⟨f', sess', hloc', hcont', hres⟩ := update_ok_parsed h1
  rw [hloc] at hloc'
  obtain rfl : f = f' := Option.some.inj hloc'
  rw [hcont] at hcont'
  obtain rfl : sess = sess' := by cases hcont'; rfl
  subst hres
  unfold applyGeminiParse
  rw [accumulateGeminiMessages_filter, hmsgs]
  split_ifs <;> simp [accumulateGeminiMessages, List.foldl]

/-- Concrete instance of claim C10. -/
theorem zero_agent_turns_keep_context_witness :
    analyticsX1.inputTokens = 0 ∧ analyticsX1.outputTokens = 0 ∧
    analyticsX1.totalTurns = 0 ∧ analyticsX1.model = "" ∧
    analyticsX1.currentContextTokens = analyticsX.currentContextTokens :=
  zero_agent_turns_keep_context hashFnE fsE "/p" "ijkl9012" analyticsX analyticsX1
    fileE sessE (by decide) (by decide) (by decide) (by decide)

end AgentDeck
